import Mathlib

/-!
Shallow embedding of the resilient API client layer of the document-management
front end (axios client with interceptors, toast bus, toast deduplication,
filename extraction, download trigger, and the documents list operation).

JavaScript strings are modelled as `List Char` (Unicode scalar values; lone
UTF-16 surrogates are not representable, which matches the valid-string
fragment the client manipulates).  JavaScript numbers that the code uses as
integers (status codes, counts, limits, timestamps) are modelled as `Nat`.
Effectful statements (toast publication, storage mutation, navigation, DOM
calls) are modelled as explicit effect traces, and exceptional control flow
as `Option`/`Except` or an explicit throw flag.
-/

/-- JavaScript string, as a list of Unicode scalar values. -/
abbrev Str := List Char

/-- Characters of a Lean string literal, used to transcribe the string
literals of the source. -/
def str (s : String) : Str := s.data

/-- The apostrophe character (U+0027), kept out of literals. -/
def apos : Char := Char.ofNat 39

/-- The double-quote character (U+0022), kept out of literals. -/
def quoteCh : Char := Char.ofNat 34

/-- JavaScript whitespace recognised by `String.prototype.trim` (the code
only ever trims ASCII payloads; the ASCII white space characters suffice). -/
def jsSpace (c : Char) : Bool := c = ' ' || c = '\t' || c = '\n' || c = '\r'

/-- `String.prototype.trim`: strip leading and trailing whitespace. -/
def jsTrim (s : Str) : Str :=
  ((s.dropWhile jsSpace).reverse.dropWhile jsSpace).reverse

/-- Decimal digit characters of a natural number (structural fuel version of
the runtime's number-to-string conversion), helper for `natChars`. -/
def natCharsAux : Nat → Nat → Str
  | 0, _ => []
  | fuel + 1, n =>
    if n < 10 then [Char.ofNat (48 + n)]
    else natCharsAux fuel (n / 10) ++ [Char.ofNat (48 + n % 10)]

/-- JavaScript number-to-string conversion for a natural number
(template-literal interpolation of a status code). -/
def natChars (n : Nat) : Str := natCharsAux (n + 1) n

/-! ## Toast bus (`toastBus.ts`)

`publishToast` iterates the live `Set` of listeners with `Set.prototype.forEach`.
Per ECMA-262, `forEach` visits entries in insertion order and also visits
entries that are inserted while the iteration is in progress.  A listener is
modelled by an identifier `ι` together with a behaviour `beh : ι → Toast →
Option ι` giving the (at most one) new listener it subscribes when it receives
a toast; `Set.prototype.add` appends the new listener only when it is not
already in the set.  The iteration is driven by fuel, because a family of
behaviours that keeps subscribing fresh listeners never terminates in
JavaScript either; a run whose second component is `true` completed its
iteration. -/

inductive ToastType
  | success
  | error
  | warning
  | info
deriving DecidableEq, Repr

/-- The `ToastMessage` shape of `toastBus.ts`. -/
structure Toast where
  message : Str
  type : ToastType
  durationMs : Option Nat := none
deriving DecidableEq, Repr

/-- `Set.prototype.add` on the insertion-ordered set: append the new
listener unless it is already registered (`none` when the visited listener
subscribes nothing). -/
def busAdd {ι : Type} [DecidableEq ι] (cur : List ι) : Option ι → List ι
  | some b => if b ∈ cur then cur else cur ++ [b]
  | none => cur

/-- One step of `Set.prototype.forEach` over the live listener set: visit
index `i` of the current set, let the visited listener subscribe, continue.
Returns the listeners that received the toast, and whether the iteration
finished. -/
def publishLoop {ι : Type} [DecidableEq ι] (beh : ι → Toast → Option ι) (t : Toast) :
    Nat → List ι → Nat → List ι × Bool
  | 0, cur, i => (cur.take i, false)
  | fuel + 1, cur, i =>
    if h : i < cur.length then
      publishLoop beh t fuel (busAdd cur (beh (cur.get ⟨i, h⟩) t)) (i + 1)
    else (cur, true)

/-- `publishToast` of `toastBus.ts`: deliver `t` to every listener of the
live set, starting from the registered listeners `ls`. -/
def publishToast {ι : Type} [DecidableEq ι] (beh : ι → Toast → Option ι)
    (t : Toast) (ls : List ι) (fuel : Nat) : List ι × Bool :=
  publishLoop beh t fuel ls 0

/-! ## Error classification and toast deduplication (`client.ts`) -/

/-- The body of a failed response, as `extractErrorMessage` inspects it:
a raw string, an object that may carry a `detail` field (itself a string or
some other value), or anything else. -/
inductive ErrBody
  | str (s : Str)
  | obj (detail : Option Str)
  | other
deriving DecidableEq, Repr

/-- The `response` part of an `AxiosError`, when a response was received. -/
structure ErrResp where
  status : Nat
  data : Option ErrBody := none
deriving DecidableEq, Repr

/-- The fragment of `AxiosError` that the interceptor inspects. -/
structure ApiError where
  response : Option ErrResp := none
  code : Option Str := none
  message : Str := []
deriving DecidableEq, Repr

/-- Fallback message of `extractErrorMessage`. -/
def fallbackMessage : Str := str "Unexpected network error. Please try again."

/-- `extractErrorMessage` of `client.ts`: body string if non-blank, else a
non-blank string `detail` field, else the non-blank transport message, else
the fixed fallback. -/
def extractErrorMessage (e : ApiError) : Str :=
  match e.response.bind ErrResp.data with
  | some (ErrBody.str s) =>
    if jsTrim s ≠ [] then s
    else if jsTrim e.message ≠ [] then e.message else fallbackMessage
  | some (ErrBody.obj (some d)) =>
    if jsTrim d ≠ [] then d
    else if jsTrim e.message ≠ [] then e.message else fallbackMessage
  | _ =>
    if jsTrim e.message ≠ [] then e.message else fallbackMessage

/-- The dedup key `` `${status}:${message}` `` of `publishErrorToast`
(`'network'` when no response was received). -/
def errKey (e : ApiError) : Str :=
  (match e.response with
   | some r => natChars r.status
   | none => str "network") ++ [':'] ++ extractErrorMessage e

/-- The module-level dedup state `lastToastKey` / `lastToastAt`. -/
structure DedupState where
  lastToastKey : Str
  lastToastAt : Nat
deriving DecidableEq, Repr

/-- The dedup state at module load. -/
def initDedup : DedupState := { lastToastKey := [], lastToastAt := 0 }

/-- `ERROR_TOAST_DEDUP_WINDOW_MS`. -/
def WINDOW_MS : Nat := 3000

/-- `publishErrorToast` of `client.ts`: suppress when the key equals the last
delivered key and less than `WINDOW_MS` elapsed since the last delivery;
otherwise record `(key, now)` and publish an error toast.  (JS computes
`now - lastToastAt` over numbers; a negative difference is `< 3000` exactly
like the truncated `Nat` difference `0`.) -/
def publishErrorToast (st : DedupState) (e : ApiError) (now : Nat) :
    DedupState × Option Toast :=
  let key := errKey e
  if key = st.lastToastKey ∧ now - st.lastToastAt < WINDOW_MS then (st, none)
  else ({ lastToastKey := key, lastToastAt := now },
        some { message := extractErrorMessage e, type := ToastType.error })

/-- Fire `publishErrorToast` for the same error at each timestamp in turn,
collecting the toasts that were actually published. -/
def runErrorToasts (e : ApiError) : DedupState → List Nat → DedupState × List Toast
  | st, [] => (st, [])
  | st, t :: ts =>
    let p := publishErrorToast st e t
    let rest := runErrorToasts e p.1 ts
    (rest.1, (match p.2 with | some x => [x] | none => []) ++ rest.2)

/-! ## Transport interceptors (`client.ts`) -/

/-- Side effects of the response interceptor: toast publication, removal of a
`localStorage` key, assignment to `window.location.href`. -/
inductive Effect
  | toast (t : Toast)
  | removeItem (key : Str)
  | navigate (url : Str)
deriving DecidableEq, Repr

/-- The fixed warning toast of the 401 branch. -/
def sessionExpiredToast : Toast :=
  { message := str "Session expired. Please log in again.", type := ToastType.warning }

/-- Effects of the 401 branch: warning toast, removal of the three credential
keys, and a redirect to `/login` unless the current path already starts with
`/login`. -/
def sessionExpiredEffects (loc : Str) : List Effect :=
  Effect.toast sessionExpiredToast ::
  Effect.removeItem (str "access_token") ::
  Effect.removeItem (str "csrf_token") ::
  Effect.removeItem (str "user") ::
  (if (str "/login").isPrefixOf loc then [] else [Effect.navigate (str "/login")])

/-- Result of the response interceptor's rejection handler: the new dedup
state, the effects performed in order, and the re-raised error. -/
structure InterceptOut where
  dedup : DedupState
  effects : List Effect
  result : ApiError
deriving Repr

/-- The non-401 part of the rejection handler: silent on `ERR_CANCELED`,
otherwise `publishErrorToast`; the error is re-raised either way. -/
def genericFailure (st : DedupState) (now : Nat) (e : ApiError) : InterceptOut :=
  if e.code = some (str "ERR_CANCELED") then
    { dedup := st, effects := [], result := e }
  else
    let p := publishErrorToast st e now
    { dedup := p.1,
      effects := match p.2 with | some x => [Effect.toast x] | none => [],
      result := e }

/-- The rejection handler of `client.interceptors.response.use`:
`error.response?.status === 401` triggers the session-expiry branch, anything
else goes through `genericFailure`; every branch re-raises the error. -/
def responseInterceptor (st : DedupState) (loc : Str) (now : Nat) (e : ApiError) :
    InterceptOut :=
  if e.response.map ErrResp.status = some 401 then
    { dedup := st, effects := sessionExpiredEffects loc, result := e }
  else genericFailure st now e

/-- The two credential values the request interceptor reads from
`localStorage` (`access_token` and `csrf_token`). -/
structure CredStore where
  accessToken : Option Str
  csrfToken : Option Str
deriving DecidableEq, Repr

/-- The parts of an axios request config the request interceptor touches,
over an arbitrary type `β` for everything it leaves alone (url, params,
body, the remaining headers, ...). -/
structure RequestConfig (β : Type) where
  method : Option Str
  authorization : Option Str
  xCsrfToken : Option Str
  rest : β
deriving Repr

/-- `MUTATING_METHODS` of `client.ts`. -/
def MUTATING_METHODS : List Str := [str "POST", str "PUT", str "PATCH", str "DELETE"]

/-- `(config.method || 'GET').toUpperCase()`: default `GET` on a missing or
empty method, then ASCII upper-casing (the methods the client ever sends are
ASCII). -/
def normalizedMethod (m : Option Str) : Str :=
  (match m with
   | some s => if s = [] then str "GET" else s
   | none => str "GET").map Char.toUpper

/-- The fulfilled handler of `client.interceptors.request.use`: attach the
bearer token when present, then attach the CSRF token when the normalized
method is mutating and a CSRF token is present; everything else is forwarded
unchanged. -/
def requestInterceptor {β : Type} (store : CredStore) (cfg : RequestConfig β) :
    RequestConfig β :=
  let cfg1 := match store.accessToken with
    | some t => { cfg with authorization := some (str "Bearer " ++ t) }
    | none => cfg
  if normalizedMethod cfg.method ∈ MUTATING_METHODS then
    match store.csrfToken with
    | some ct => { cfg1 with xCsrfToken := some ct }
    | none => cfg1
  else cfg1

/-! ## Filename extraction (`documents.ts`) -/

/-- Unreserved characters of `encodeURIComponent` (ECMA-262
`uriUnescaped`). -/
def isUnreservedCh (c : Char) : Bool :=
  c.isAlpha || c.isDigit ||
  c = '-' || c = '_' || c = '.' || c = '!' || c = '~' || c = '*' ||
  c = '(' || c = ')' || c = apos

/-- Upper-case hexadecimal digit of a value below 16. -/
def hexDigitCh (n : Nat) : Char :=
  if n < 10 then Char.ofNat (48 + n) else Char.ofNat (55 + n)

/-- Value of a hexadecimal digit character, if it is one. -/
def hexVal (c : Char) : Option Nat :=
  if '0' ≤ c ∧ c ≤ '9' then some (c.toNat - 48)
  else if 'A' ≤ c ∧ c ≤ 'F' then some (c.toNat - 55)
  else if 'a' ≤ c ∧ c ≤ 'f' then some (c.toNat - 87)
  else none

/-- UTF-8 bytes of a Unicode scalar value, written with division and
remainder (equal to the usual shift-and-mask form on these ranges). -/
def utf8Bytes (n : Nat) : List Nat :=
  if n < 128 then [n]
  else if n < 2048 then [192 + n / 64, 128 + n % 64]
  else if n < 65536 then [224 + n / 4096, 128 + (n / 64) % 64, 128 + n % 64]
  else [240 + n / 262144, 128 + (n / 4096) % 64, 128 + (n / 64) % 64, 128 + n % 64]

/-- `%XX` escape of one byte, upper-case hex as `encodeURIComponent`
produces. -/
def pctEscape (b : Nat) : Str := ['%', hexDigitCh (b / 16), hexDigitCh (b % 16)]

/-- `encodeURIComponent` restricted to one character. -/
def encodeChar (c : Char) : Str :=
  if isUnreservedCh c then [c] else (utf8Bytes c.toNat).flatMap pctEscape

/-- ECMA-262 `encodeURIComponent`: unreserved characters pass through,
everything else becomes `%XX` escapes of its UTF-8 bytes. -/
def encodeURIComponent (s : Str) : Str := s.flatMap encodeChar

/-- Read one `%XX` escape from the head of the input: the byte value and
the remaining input. -/
def readEsc : Str → Option (Nat × Str)
  | '%' :: h1 :: h2 :: s =>
    (match hexVal h1, hexVal h2 with
     | some a, some b => some (16 * a + b, s)
     | _, _ => none)
  | _ => none

/-- Read one `%XX` escape that must be a UTF-8 continuation byte
(`0x80`-`0xBF`). -/
def readCont (s : Str) : Option (Nat × Str) :=
  match readEsc s with
  | some (y, s1) => if 128 ≤ y ∧ y < 192 then some (y, s1) else none
  | none => none

/-- ECMA-262 `decodeURIComponent`, one fuel unit per produced character
(any fuel above the input length is enough, so the fuel case is never the
result for the fuel the wrapper passes): `%XX` escapes are decoded
byte-wise and grouped into strict UTF-8 sequences (continuation bytes must
themselves be escapes; overlong forms, surrogates and out-of-range values
are rejected); other characters pass through; `none` models a thrown
`URIError`. -/
def decodeAux : Nat → Str → Option Str
  | 0, _ => none
  | _ + 1, [] => some []
  | fuel + 1, c :: s =>
    if c = '%' then
      match readEsc (c :: s) with
      | none => none
      | some (x, s1) =>
        if x < 128 then (decodeAux fuel s1).map (fun t => Char.ofNat x :: t)
        else if x < 194 then none
        else if x < 224 then
          match readCont s1 with
          | none => none
          | some (y, s2) =>
            (decodeAux fuel s2).map (fun t => Char.ofNat ((x - 192) * 64 + (y - 128)) :: t)
        else if x < 240 then
          match readCont s1 with
          | none => none
          | some (y, s2) =>
            match readCont s2 with
            | none => none
            | some (z, s3) =>
              let cp := (x - 224) * 4096 + (y - 128) * 64 + (z - 128)
              if 2048 ≤ cp ∧ (cp < 55296 ∨ 57343 < cp) then
                (decodeAux fuel s3).map (fun t => Char.ofNat cp :: t)
              else none
        else if x < 245 then
          match readCont s1 with
          | none => none
          | some (y, s2) =>
            match readCont s2 with
            | none => none
            | some (z, s3) =>
              match readCont s3 with
              | none => none
              | some (w, s4) =>
                let cp := (x - 240) * 262144 + (y - 128) * 4096 + (z - 128) * 64 + (w - 128)
                if 65536 ≤ cp ∧ cp < 1114112 then
                  (decodeAux fuel s4).map (fun t => Char.ofNat cp :: t)
                else none
        else none
    else (decodeAux fuel s).map (fun t => c :: t)

/-- ECMA-262 `decodeURIComponent` over the whole input. -/
def decodeURIComponent (s : Str) : Option Str := decodeAux (s.length + 1) s

/-- Case-insensitive character comparison of the `/i` regex flag (ASCII
simple folding; without the `u` flag a non-ASCII character never matches an
ASCII pattern character, which `Char.toLower`'s ASCII-only mapping
reproduces). -/
def ciEq (p c : Char) : Bool := p.toLower = c.toLower

/-- Match a literal pattern case-insensitively at the head of the input,
returning the remaining input on success. -/
def matchPfxCI : Str → Str → Option Str
  | [], s => some s
  | _ :: _, [] => none
  | p :: ps, c :: cs => if ciEq p c then matchPfxCI ps cs else none

/-- The literal part of the regex `/filename\*=UTF-8''([^;]+)/i`. -/
def utf8Tag : Str := str "filename*=UTF-8" ++ [apos, apos]

/-- The literal part of the regex `/filename="?([^"]+)"?/i`. -/
def plainTag : Str := str "filename="

/-- `exec` of `/filename\*=UTF-8''([^;]+)/i`: capture group 1 of the
leftmost match.  At a position where the literal matches, `([^;]+)` greedily
captures the non-empty run of non-semicolon characters; if that run is
empty there is no match at this position and the scan moves right. -/
def execUtf8 : Str → Option Str
  | [] => none
  | c :: rest =>
    match matchPfxCI utf8Tag (c :: rest) with
    | some r =>
      let cap := r.takeWhile (fun ch => ch ≠ ';')
      if cap = [] then execUtf8 rest else some cap
    | none => execUtf8 rest

/-- `exec` of `/filename="?([^"]+)"?/i`: capture group 1 of the leftmost
match.  After the literal, an optional opening quote is consumed, then
`([^"]+)` greedily captures a non-empty run of non-quote characters (when
the character right after the literal is a quote but nothing non-quote
follows it, backtracking fails the position entirely); the closing quote is
optional and does not affect the capture. -/
def execPlain : Str → Option Str
  | [] => none
  | c :: rest =>
    match matchPfxCI plainTag (c :: rest) with
    | some r =>
      match r with
      | [] => execPlain rest
      | q :: r2 =>
        if q = quoteCh then
          let cap := r2.takeWhile (fun ch => ch ≠ quoteCh)
          if cap = [] then execPlain rest else some cap
        else some ((q :: r2).takeWhile (fun ch => ch ≠ quoteCh))
    | none => execPlain rest

/-- `extractFilename` of `documents.ts`: on a missing or empty header return
the fallback; else try the RFC 5987 extended form and percent-decode its
capture (returning the raw capture when decoding throws); else try the plain
form; else return the fallback. -/
def extractFilename (contentDisposition : Option Str) (fallback : Str) : Str :=
  match contentDisposition with
  | none => fallback
  | some s =>
    if s = [] then fallback
    else
      match execUtf8 s with
      | some cap =>
        match decodeURIComponent cap with
        | some d => d
        | none => cap
      | none =>
        match execPlain s with
        | some cap => cap
        | none => fallback

/-! ## Download trigger (`documents.ts`) -/

/-- The observable DOM/URL calls of `triggerBrowserDownload`, in program
order. -/
inductive DownloadStep
  | createObjectURL
  | appendChild
  | click
  | removeChild
  | revokeObjectURL
deriving DecidableEq, Repr

/-- `triggerBrowserDownload`: create the object URL, append the anchor,
invoke `click()`, remove the anchor, revoke the URL — with no `try`/`finally`
around any of it.  `clickThrows` says whether the synchronous `click()`
invocation throws; when it does, the exception propagates and the remaining
statements do not run.  Returns the executed steps and whether the call
threw. -/
def triggerBrowserDownload (clickThrows : Bool) : List DownloadStep × Bool :=
  if clickThrows then
    ([DownloadStep.createObjectURL, DownloadStep.appendChild, DownloadStep.click], true)
  else
    ([DownloadStep.createObjectURL, DownloadStep.appendChild, DownloadStep.click,
      DownloadStep.removeChild, DownloadStep.revokeObjectURL], false)

/-! ## Documents list operation (`documents.ts`) -/

/-- The filter fields of `DocumentFilters` that influence the returned
value (the remaining fields only shape the outgoing query string). -/
structure DocumentFilters where
  limit : Option Nat := none
  page : Option Nat := none
deriving Repr

/-- Raw list-endpoint payload, over an arbitrary document type `D`; every
field may be absent (`response.data` may be malformed or partial). -/
structure ApiListData (D : Type) where
  documents : Option (List D) := none
  total : Option Nat := none
  limit : Option Nat := none
  offset : Option Nat := none
  has_more : Option Bool := none
  items : Option (List D) := none
deriving Repr

/-- The normalized `DocumentListResponse` shape. -/
structure DocumentListResponse (D : Type) where
  documents : List D
  total : Nat
  limit : Nat
  offset : Nat
  has_more : Bool
  items : List D
  pages : Nat
  page : Nat
  page_size : Nat
deriving Repr

/-- `EMPTY_RESPONSE` of `documents.ts`. -/
def EMPTY_RESPONSE {D : Type} : DocumentListResponse D :=
  { documents := [], total := 0, limit := 20, offset := 0, has_more := false,
    items := [], pages := 1, page := 1, page_size := 20 }

/-- `x || y` over the integers the list operation works with: `x` when
present and non-zero, else `y`. -/
def jsOrNat (x : Option Nat) (y : Nat) : Nat :=
  match x with
  | some v => if v = 0 then y else v
  | none => y

/-- `Math.ceil(a / b)` for natural `a` and positive natural `b`. -/
def jsCeilDiv (a b : Nat) : Nat := (a + b - 1) / b

/-- `documentsApi.getDocuments`: the whole body runs inside `try`/`catch`;
any failure (`outcome = .error _`) is absorbed into `EMPTY_RESPONSE`.  On
success the raw data (`response.data || {}`) is normalized: `documents` and
`items` are both the raw document list (the raw `items` field, if any, is
discarded by the explicit properties after the spread), `total` defaults to
0, `limit` is the first non-zero of raw limit / filter limit / 20, `pages`
is `Math.ceil(total / limit) || 1`, `page` is `filters.page || 1`; `limit`,
`offset` and `has_more` of the result come from the spread of
`EMPTY_RESPONSE` then the raw data. -/
def getDocuments {D : Type} (filters : DocumentFilters)
    (outcome : Except ApiError (Option (ApiListData D))) : DocumentListResponse D :=
  match outcome with
  | Except.error _ => EMPTY_RESPONSE
  | Except.ok odata =>
    let data := odata.getD {}
    let docs := data.documents.getD []
    let total := data.total.getD 0
    let limit := jsOrNat data.limit (jsOrNat filters.limit 20)
    { documents := docs
      items := docs
      total := total
      limit := data.limit.getD (EMPTY_RESPONSE : DocumentListResponse D).limit
      offset := data.offset.getD (EMPTY_RESPONSE : DocumentListResponse D).offset
      has_more := data.has_more.getD (EMPTY_RESPONSE : DocumentListResponse D).has_more
      pages := let p := jsCeilDiv total limit; if p = 0 then 1 else p
      page := jsOrNat filters.page 1
      page_size := limit }

/-! ## Helper lemmas -/

/-- `x || y` over present-or-absent naturals is positive when the default
is. -/
theorem jsOrNat_pos (x : Option Nat) (y : Nat) (hy : 0 < y) : 0 < jsOrNat x y := by
  cases x with
  | none => exact hy
  | some v =>
    by_cases hv : v = 0
    · simp [jsOrNat, hv, hy]
    · simp [jsOrNat, hv]
      omega

/-- `Math.ceil(a / b)` is zero exactly on a zero numerator (positive
denominator). -/
theorem jsCeilDiv_eq_zero_iff (a b : Nat) (hb : 0 < b) : jsCeilDiv a b = 0 ↔ a = 0 := by
  unfold jsCeilDiv
  constructor
  · intro h
    by_contra ha
    have h1 : 0 < (a + b - 1) / b := Nat.div_pos (by omega) hb
    omega
  · intro h
    subst h
    exact Nat.div_eq_of_lt (by omega)

/-! ## Claim theorems -/

/-- C5: the list operation absorbs every failure: on any failed outcome it
returns `EMPTY_RESPONSE`, whose `documents` and `items` are empty, `total`
is 0, `pages` is 1 and `page` is 1; the operation is a total function, so
no failure propagates as a thrown error. -/
theorem getDocuments_absorbs_failures {D : Type} (filters : DocumentFilters)
    (e : ApiError) :
    getDocuments (D := D) filters (Except.error e) = EMPTY_RESPONSE
    ∧ (EMPTY_RESPONSE : DocumentListResponse D).documents = []
    ∧ (EMPTY_RESPONSE : DocumentListResponse D).items = []
    ∧ (EMPTY_RESPONSE : DocumentListResponse D).total = 0
    ∧ (EMPTY_RESPONSE : DocumentListResponse D).pages = 1
    ∧ (EMPTY_RESPONSE : DocumentListResponse D).page = 1 :=
  ⟨rfl, rfl, rfl, rfl, rfl, rfl⟩

/-- C6: on every successful list response the computed page count is
`ceil(total / limit)` over the normalized total and limit, defaulting to 1
when the total is 0; in particular the spec's concrete scenario
normalizes to `items = [], total = 0, pages = 1, page = 1`. -/
theorem getDocuments_pages_normalization {D : Type} (filters : DocumentFilters)
    (d : ApiListData D) :
    (d.total.getD 0 = 0 → (getDocuments filters (Except.ok (some d))).pages = 1)
    ∧ (d.total.getD 0 ≠ 0 →
        (getDocuments filters (Except.ok (some d))).pages
          = jsCeilDiv (d.total.getD 0) (jsOrNat d.limit (jsOrNat filters.limit 20)))
    ∧ (getDocuments { limit := none, page := none }
        (Except.ok (some ({ documents := some [], total := some 0, limit := some 20,
                            offset := some 0, has_more := some false, items := none }
          : ApiListData D)))
        = { documents := [], total := 0, limit := 20, offset := 0, has_more := false,
            items := [], pages := 1, page := 1, page_size := 20 }) := by
  have hL : 0 < jsOrNat d.limit (jsOrNat filters.limit 20) :=
    jsOrNat_pos _ _ (jsOrNat_pos _ _ (by omega))
  refine ⟨?_, ?_, by unfold getDocuments; simp [jsOrNat, jsCeilDiv]⟩
  · intro h0
    show (if jsCeilDiv (d.total.getD 0) (jsOrNat d.limit (jsOrNat filters.limit 20)) = 0
          then 1 else _) = 1
    rw [if_pos ((jsCeilDiv_eq_zero_iff _ _ hL).mpr h0)]
  · intro hne
    show (if jsCeilDiv (d.total.getD 0) (jsOrNat d.limit (jsOrNat filters.limit 20)) = 0
          then 1 else jsCeilDiv (d.total.getD 0) (jsOrNat d.limit (jsOrNat filters.limit 20)))
          = jsCeilDiv (d.total.getD 0) (jsOrNat d.limit (jsOrNat filters.limit 20))
    rw [if_neg (fun h => hne ((jsCeilDiv_eq_zero_iff _ _ hL).mp h))]

/-- C10: on every outcome (success or absorbed failure) the returned `items`
and `documents` fields are the same list; on success both are the raw
`documents` list, regardless of any raw `items` field. -/
theorem getDocuments_items_mirror_documents {D : Type} (filters : DocumentFilters)
    (o : Except ApiError (Option (ApiListData D))) :
    ((getDocuments filters o).items = (getDocuments filters o).documents)
    ∧ (∀ d : ApiListData D,
        (getDocuments filters (Except.ok (some d))).items = d.documents.getD []) := by
  refine ⟨?_, fun d => rfl⟩
  cases o with
  | error e => rfl
  | ok od => rfl

/-- C9 counterexample: on the path where the synchronous save action
(`link.click()`) throws, `revokeObjectURL` is never executed — the claimed
release-on-every-path is false. -/
theorem triggerBrowserDownload_throw_skips_release :
    DownloadStep.revokeObjectURL ∉ (triggerBrowserDownload true).1
    ∧ (triggerBrowserDownload true).2 = true := by decide

/-- C9 (amended): the object URL is released exactly on the path where the
save-action invocation returns normally; when `click()` throws, the removal
and the release are skipped and the exception propagates. -/
theorem triggerBrowserDownload_release_iff_click_returns :
    ∀ b : Bool,
      (DownloadStep.revokeObjectURL ∈ (triggerBrowserDownload b).1 ↔ b = false)
      ∧ (DownloadStep.removeChild ∈ (triggerBrowserDownload b).1 ↔ b = false)
      ∧ (triggerBrowserDownload b).2 = b := by decide

/-- C7: the outbound stage attaches `Authorization: Bearer <token>` exactly
when an access token is present, attaches the CSRF header exactly when the
normalized method (upper-cased, defaulting to GET) is in the mutating set
and a CSRF token is present, and forwards every other part of the request
unchanged. -/
theorem requestInterceptor_headers {β : Type} (store : CredStore)
    (cfg : RequestConfig β) :
    ((requestInterceptor store cfg).authorization
      = match store.accessToken with
        | some t => some (str "Bearer " ++ t)
        | none => cfg.authorization)
    ∧ (normalizedMethod cfg.method ∈ MUTATING_METHODS → store.csrfToken ≠ none →
        (requestInterceptor store cfg).xCsrfToken = store.csrfToken)
    ∧ ((normalizedMethod cfg.method ∉ MUTATING_METHODS ∨ store.csrfToken = none) →
        (requestInterceptor store cfg).xCsrfToken = cfg.xCsrfToken)
    ∧ (requestInterceptor store cfg).method = cfg.method
    ∧ (requestInterceptor store cfg).rest = cfg.rest := by
  unfold requestInterceptor
  by_cases hm : normalizedMethod cfg.method ∈ MUTATING_METHODS <;>
    cases hc : store.csrfToken <;> cases ha : store.accessToken <;>
      simp [hm, hc, ha]

/-- Concrete store and config used by the C7 witness. -/
def c7Store : CredStore := { accessToken := some (str "tok"), csrfToken := some (str "csrf") }

/-- Concrete request config used by the C7 witness. -/
def c7Cfg : RequestConfig Unit :=
  { method := some (str "post"), authorization := none, xCsrfToken := none, rest := () }

/-- C7 witness: on a lower-case `post` request with both tokens present, the
interceptor attaches both headers. -/
theorem requestInterceptor_headers_witness :
    (requestInterceptor c7Store c7Cfg).xCsrfToken = some (str "csrf")
    ∧ (requestInterceptor c7Store c7Cfg).authorization = some (str "Bearer " ++ str "tok") := by
  have h := requestInterceptor_headers c7Store c7Cfg
  exact ⟨h.2.1 (by decide) (by decide), h.1⟩

/-- C6 witness: a successful response with total 45 and limit 20 yields 3
pages; one with total 0 yields 1 page. -/
theorem getDocuments_pages_normalization_witness :
    (getDocuments (D := Unit) { limit := none, page := none }
        (Except.ok (some { documents := some [], total := some 45, limit := some 20,
                           offset := some 0, has_more := some true, items := none }))).pages = 3
    ∧ (getDocuments (D := Unit) { limit := none, page := none }
        (Except.ok (some { documents := some [], total := some 0, limit := some 20,
                           offset := some 0, has_more := some false, items := none }))).pages = 1 := by
  constructor
  · have h := (getDocuments_pages_normalization (D := Unit) { limit := none, page := none }
      { documents := some [], total := some 45, limit := some 20,
        offset := some 0, has_more := some true, items := none }).2.1 (by decide)
    rw [h]
    decide
  · exact (getDocuments_pages_normalization (D := Unit) { limit := none, page := none }
      { documents := some [], total := some 0, limit := some 20,
        offset := some 0, has_more := some false, items := none }).1 (by decide)

/-- C1: on every 401 failure the inbound stage publishes the fixed warning
toast, removes each of the three credential keys exactly once, navigates to
the login surface exactly when the current path does not already start with
`/login` (and never more than once), and re-raises the original error. -/
theorem responseInterceptor_unauthorized (st : DedupState) (loc : Str) (now : Nat)
    (e : ApiError) (h401 : e.response.map ErrResp.status = some 401) :
    (responseInterceptor st loc now e).effects.count (Effect.toast sessionExpiredToast) = 1
    ∧ (responseInterceptor st loc now e).effects.count
        (Effect.removeItem (str "access_token")) = 1
    ∧ (responseInterceptor st loc now e).effects.count
        (Effect.removeItem (str "csrf_token")) = 1
    ∧ (responseInterceptor st loc now e).effects.count (Effect.removeItem (str "user")) = 1
    ∧ (Effect.navigate (str "/login") ∈ (responseInterceptor st loc now e).effects
        ↔ (str "/login").isPrefixOf loc = false)
    ∧ (responseInterceptor st loc now e).effects.count (Effect.navigate (str "/login")) ≤ 1
    ∧ (responseInterceptor st loc now e).result = e := by
  have heff : responseInterceptor st loc now e
      = { dedup := st, effects := sessionExpiredEffects loc, result := e } := by
    unfold responseInterceptor
    rw [if_pos h401]
  rw [heff]
  unfold sessionExpiredEffects
  cases hp : (str "/login").isPrefixOf loc <;>
    simp [hp, List.count_cons, sessionExpiredToast] <;> decide

/-- Concrete 401 error used by the C1 witness. -/
def c1Err : ApiError :=
  { response := some { status := 401, data := none }, code := none, message := str "Unauthorized" }

/-- C1 witness: a 401 failure on `/dashboard` removes the access token
exactly once, navigates to `/login`, and re-raises the error; on `/login`
no navigation happens. -/
theorem responseInterceptor_unauthorized_witness :
    (responseInterceptor initDedup (str "/dashboard") 0 c1Err).effects.count
      (Effect.removeItem (str "access_token")) = 1
    ∧ Effect.navigate (str "/login")
        ∈ (responseInterceptor initDedup (str "/dashboard") 0 c1Err).effects
    ∧ Effect.navigate (str "/login")
        ∉ (responseInterceptor initDedup (str "/login") 0 c1Err).effects
    ∧ (responseInterceptor initDedup (str "/dashboard") 0 c1Err).result = c1Err := by
  have h1 := responseInterceptor_unauthorized initDedup (str "/dashboard") 0 c1Err (by decide)
  have h2 := responseInterceptor_unauthorized initDedup (str "/login") 0 c1Err (by decide)
  refine ⟨h1.2.1, h1.2.2.2.2.1.mpr (by decide), ?_, h1.2.2.2.2.2.2⟩
  intro hmem
  exact absurd (h2.2.2.2.2.1.mp hmem) (by decide)

/-- C3: a failure carrying the cancellation marker (`code = ERR_CANCELED`,
which axios raises without any server response) performs no effect at all —
in particular nothing is published to the notification channel — leaves the
dedup state untouched, and re-raises the original error. -/
theorem responseInterceptor_canceled (st : DedupState) (loc : Str) (now : Nat)
    (e : ApiError) (hcode : e.code = some (str "ERR_CANCELED"))
    (hresp : e.response = none) :
    (responseInterceptor st loc now e).effects = []
    ∧ (∀ t, Effect.toast t ∉ (responseInterceptor st loc now e).effects)
    ∧ (responseInterceptor st loc now e).result = e
    ∧ (responseInterceptor st loc now e).dedup = st := by
  have h : responseInterceptor st loc now e = { dedup := st, effects := [], result := e } := by
    unfold responseInterceptor genericFailure
    rw [hresp]
    rw [if_neg (by simp)]
    rw [if_pos hcode]
  rw [h]
  exact ⟨rfl, fun t => by simp, rfl, rfl⟩

/-- Concrete canceled error used by the C3 witness. -/
def c3Err : ApiError :=
  { response := none, code := some (str "ERR_CANCELED"), message := str "canceled" }

/-- C3 witness: a concrete canceled failure produces no effects and
re-raises itself. -/
theorem responseInterceptor_canceled_witness :
    (responseInterceptor initDedup (str "/library") 7 c3Err).effects = []
    ∧ (responseInterceptor initDedup (str "/library") 7 c3Err).result = c3Err := by
  have h := responseInterceptor_canceled initDedup (str "/library") 7 c3Err (by decide) (by decide)
  exact ⟨h.1, h.2.2.1⟩

/-- A run over timestamps that all fall inside the window opened at `t`
keeps the state recorded at the burst-opening delivery and publishes
nothing. -/
theorem runErrorToasts_window_suppresses (e : ApiError) (t : Nat) (ts : List Nat)
    (hts : ∀ u ∈ ts, u < t + WINDOW_MS) :
    runErrorToasts e { lastToastKey := errKey e, lastToastAt := t } ts
      = ({ lastToastKey := errKey e, lastToastAt := t }, []) := by
  have hW : WINDOW_MS = 3000 := rfl
  induction ts with
  | nil => rfl
  | cons u us ih =>
    have hu : u < t + WINDOW_MS := hts u (by simp)
    have hstep : publishErrorToast { lastToastKey := errKey e, lastToastAt := t } e u
        = ({ lastToastKey := errKey e, lastToastAt := t }, none) := by
      show (if errKey e = errKey e ∧ u - t < WINDOW_MS then
              (({ lastToastKey := errKey e, lastToastAt := t } : DedupState),
               (none : Option Toast))
            else ({ lastToastKey := errKey e, lastToastAt := u },
                  some { message := extractErrorMessage e, type := ToastType.error }))
          = ({ lastToastKey := errKey e, lastToastAt := t }, none)
      rw [if_pos ⟨rfl, by omega⟩]
    have hrest := ih (fun v hv => hts v (by simp [hv]))
    unfold runErrorToasts
    simp only [hstep, hrest]
    rfl

/-- A run whose consecutive timestamps are each more than a window apart,
starting from the state recorded by a delivery at `t`, publishes every
fire. -/
theorem runErrorToasts_gaps_deliver (e : ApiError) :
    ∀ (ts : List Nat) (t : Nat), List.Chain' (fun a b => a + WINDOW_MS < b) (t :: ts) →
    (runErrorToasts e { lastToastKey := errKey e, lastToastAt := t } ts).2.length
      = ts.length := by
  intro ts
  induction ts with
  | nil => intro t _; rfl
  | cons u us ih =>
    intro t hch
    have htu : t + WINDOW_MS < u := (List.chain'_cons.mp hch).1
    have hstep : publishErrorToast { lastToastKey := errKey e, lastToastAt := t } e u
        = ({ lastToastKey := errKey e, lastToastAt := u },
           some { message := extractErrorMessage e, type := ToastType.error }) := by
      show (if errKey e = errKey e ∧ u - t < WINDOW_MS then
              (({ lastToastKey := errKey e, lastToastAt := t } : DedupState),
               (none : Option Toast))
            else ({ lastToastKey := errKey e, lastToastAt := u },
                  some { message := extractErrorMessage e, type := ToastType.error }))
          = ({ lastToastKey := errKey e, lastToastAt := u },
             some { message := extractErrorMessage e, type := ToastType.error })
      rw [if_neg (fun hpair => absurd (show u - t < WINDOW_MS from hpair.2) (by omega))]
    have hrest := ih u (List.chain'_cons.mp hch).2
    unfold runErrorToasts
    simp [hstep, hrest]

/-- C2 (amended): for a burst of identical-key generic failures whose every
fire falls less than the window after the first fire, exactly one toast is
delivered (the window is anchored at the last *delivery*, not the last
fire); when consecutive fires are each more than a window apart, every fire
is delivered (so a burst of two or more delivers more than one); and the
dedup state is updated only on a non-suppressed delivery. -/
theorem publishErrorToast_dedup_behaviour (e : ApiError) (t : Nat) (ts : List Nat)
    (st : DedupState) (now : Nat) :
    (errKey e ≠ [] → (∀ u ∈ ts, u < t + WINDOW_MS) →
      (runErrorToasts e initDedup (t :: ts)).2.length = 1)
    ∧ (errKey e ≠ [] → List.Chain' (fun a b => a + WINDOW_MS < b) (t :: ts) →
      (runErrorToasts e initDedup (t :: ts)).2.length = (t :: ts).length)
    ∧ ((publishErrorToast st e now).2 = none → (publishErrorToast st e now).1 = st) := by
  have hfirst : errKey e ≠ [] →
      publishErrorToast initDedup e t
        = ({ lastToastKey := errKey e, lastToastAt := t },
           some { message := extractErrorMessage e, type := ToastType.error }) := by
    intro hk
    show (if errKey e = [] ∧ t - 0 < WINDOW_MS then
            (initDedup, (none : Option Toast))
          else ({ lastToastKey := errKey e, lastToastAt := t },
                some { message := extractErrorMessage e, type := ToastType.error }))
        = ({ lastToastKey := errKey e, lastToastAt := t },
           some { message := extractErrorMessage e, type := ToastType.error })
    rw [if_neg (fun hp => hk hp.1)]
  refine ⟨?_, ?_, ?_⟩
  · intro hk hts
    unfold runErrorToasts
    simp only [hfirst hk, runErrorToasts_window_suppresses e t ts hts]
    rfl
  · intro hk hch
    have hlen := runErrorToasts_gaps_deliver e ts t hch
    unfold runErrorToasts
    simp only [hfirst hk]
    simp [hlen]
  · show ((if errKey e = st.lastToastKey ∧ now - st.lastToastAt < WINDOW_MS then
            (st, (none : Option Toast))
          else ({ lastToastKey := errKey e, lastToastAt := now },
                some { message := extractErrorMessage e, type := ToastType.error }))).2 = none →
        ((if errKey e = st.lastToastKey ∧ now - st.lastToastAt < WINDOW_MS then
            (st, (none : Option Toast))
          else ({ lastToastKey := errKey e, lastToastAt := now },
                some { message := extractErrorMessage e, type := ToastType.error }))).1 = st
    by_cases hc : errKey e = st.lastToastKey ∧ now - st.lastToastAt < WINDOW_MS
    · rw [if_pos hc]
      intro
      rfl
    · rw [if_neg hc]
      intro h
      simp at h

/-- Concrete generic failure (status 500, body string `boom`) used by the
C2 counterexample and witness. -/
def c2Err : ApiError :=
  { response := some { status := 500, data := some (ErrBody.str (str "boom")) },
    code := none, message := str "m" }

/-- A dedup state holding the key of `c2Err`, used by the C2 witness. -/
def c2St : DedupState := { lastToastKey := str "500:boom", lastToastAt := 4 }

/-- C2 counterexample: three fires of the same key at 0, 2000 and 4000
are each less than 3000 ms after the previous fire, yet two toasts are
delivered, not exactly one — the suppression window is anchored at the last
delivery, so the fire at 4000 falls outside the window opened at 0. -/
theorem publishErrorToast_burst_counterexample :
    (2000 - 0 < WINDOW_MS ∧ 4000 - 2000 < WINDOW_MS)
    ∧ (runErrorToasts c2Err initDedup [0, 2000, 4000]).2.length = 2
    ∧ ¬ (runErrorToasts c2Err initDedup [0, 2000, 4000]).2.length = 1 := by decide

/-- C2 witness: a burst inside one window delivers exactly one toast; fires
3001 ms apart are all delivered; a suppressed call leaves the state
untouched. -/
theorem publishErrorToast_dedup_behaviour_witness :
    (runErrorToasts c2Err initDedup [0, 1000, 2500]).2.length = 1
    ∧ (runErrorToasts c2Err initDedup [0, 3001, 6003]).2.length = 3
    ∧ (publishErrorToast c2St c2Err 5).1 = c2St := by
  refine ⟨(publishErrorToast_dedup_behaviour c2Err 0 [1000, 2500] initDedup 0).1
            (by decide) (by decide),
          (publishErrorToast_dedup_behaviour c2Err 0 [3001, 6003] initDedup 0).2.1
            (by decide) (by simp [List.chain'_cons, WINDOW_MS]),
          (publishErrorToast_dedup_behaviour c2Err 0 [] c2St 5).2.2 (by decide)⟩

/-- `Set.prototype.add` only ever appends. -/
theorem busAdd_append {ι : Type} [DecidableEq ι] (cur : List ι) (o : Option ι) :
    ∃ ext, busAdd cur o = cur ++ ext := by
  cases o with
  | none => exact ⟨[], by simp [busAdd]⟩
  | some b =>
    by_cases hb : b ∈ cur
    · exact ⟨[], by simp [busAdd, hb]⟩
    · exact ⟨[b], by simp [busAdd, hb]⟩

/-- Membership is preserved by `busAdd`. -/
theorem busAdd_mem {ι : Type} [DecidableEq ι] (cur : List ι) (o : Option ι)
    (a : ι) (ha : a ∈ cur) : a ∈ busAdd cur o := by
  obtain ⟨ext, he⟩ := busAdd_append cur o
  rw [he]
  exact List.mem_append_left _ ha

/-- The added listener is in the set afterwards. -/
theorem busAdd_new_mem {ι : Type} [DecidableEq ι] (cur : List ι) (b : ι) :
    b ∈ busAdd cur (some b) := by
  unfold busAdd
  by_cases hb : b ∈ cur <;> simp [hb]

/-- A completed `forEach` run delivers to every listener of the set it
started from. -/
theorem publishLoop_mem {ι : Type} [DecidableEq ι] (beh : ι → Toast → Option ι)
    (t : Toast) :
    ∀ (fuel : Nat) (cur : List ι) (i : Nat),
      (publishLoop beh t fuel cur i).2 = true →
      ∀ a ∈ cur, a ∈ (publishLoop beh t fuel cur i).1 := by
  intro fuel
  induction fuel with
  | zero =>
    intro cur i h
    simp [publishLoop] at h
  | succ f ih =>
    intro cur i hfin a ha
    by_cases h : i < cur.length
    · have hstep : publishLoop beh t (f + 1) cur i
          = publishLoop beh t f (busAdd cur (beh (cur.get ⟨i, h⟩) t)) (i + 1) := by
        simp only [publishLoop]
        rw [dif_pos h]
      rw [hstep] at hfin ⊢
      exact ih _ _ hfin a (busAdd_mem _ _ a ha)
    · have hstep : publishLoop beh t (f + 1) cur i = (cur, true) := by
        unfold publishLoop
        rw [dif_neg h]
      rw [hstep]
      exact ha

/-- A completed `forEach` run only ever appends to the listener set. -/
theorem publishLoop_extends {ι : Type} [DecidableEq ι] (beh : ι → Toast → Option ι)
    (t : Toast) :
    ∀ (fuel : Nat) (cur : List ι) (i : Nat),
      (publishLoop beh t fuel cur i).2 = true →
      ∃ ext, (publishLoop beh t fuel cur i).1 = cur ++ ext := by
  intro fuel
  induction fuel with
  | zero =>
    intro cur i h
    simp [publishLoop] at h
  | succ f ih =>
    intro cur i hfin
    by_cases h : i < cur.length
    · have hstep : publishLoop beh t (f + 1) cur i
          = publishLoop beh t f (busAdd cur (beh (cur.get ⟨i, h⟩) t)) (i + 1) := by
        simp only [publishLoop]
        rw [dif_pos h]
      rw [hstep] at hfin ⊢
      obtain ⟨e1, he1⟩ := busAdd_append cur (beh (cur.get ⟨i, h⟩) t)
      obtain ⟨e2, he2⟩ := ih _ _ hfin
      exact ⟨e1 ++ e2, by rw [he2, he1, List.append_assoc]⟩
    · have hstep : publishLoop beh t (f + 1) cur i = (cur, true) := by
        unfold publishLoop
        rw [dif_neg h]
      rw [hstep]
      exact ⟨[], by simp⟩

/-- In a completed `forEach` run, a listener subscribed by a visited
listener is itself delivered to: it joins the live set before the iteration
reaches the end, and the iteration visits the whole live set. -/
theorem publishLoop_subscribed_gets_toast {ι : Type} [DecidableEq ι]
    (beh : ι → Toast → Option ι) (t : Toast) :
    ∀ (fuel : Nat) (cur : List ι) (i : Nat),
      (publishLoop beh t fuel cur i).2 = true →
      ∀ a ∈ cur.drop i, ∀ b, beh a t = some b →
        b ∈ (publishLoop beh t fuel cur i).1 := by
  intro fuel
  induction fuel with
  | zero =>
    intro cur i h
    simp [publishLoop] at h
  | succ f ih =>
    intro cur i hfin a ha b hb
    by_cases h : i < cur.length
    · have hstep : publishLoop beh t (f + 1) cur i
          = publishLoop beh t f (busAdd cur (beh (cur.get ⟨i, h⟩) t)) (i + 1) := by
        simp only [publishLoop]
        rw [dif_pos h]
      rw [hstep] at hfin ⊢
      rw [List.drop_eq_getElem_cons h] at ha
      rcases List.mem_cons.mp ha with hhd | htl
      · have hget : cur.get ⟨i, h⟩ = cur[i] := rfl
        have hbmem : b ∈ busAdd cur (beh (cur.get ⟨i, h⟩) t) := by
          rw [hget, ← hhd, hb]
          exact busAdd_new_mem cur b
        exact publishLoop_mem beh t f _ _ hfin b hbmem
      · obtain ⟨e1, he1⟩ := busAdd_append cur (beh (cur.get ⟨i, h⟩) t)
        have ha2 : a ∈ (busAdd cur (beh (cur.get ⟨i, h⟩) t)).drop (i + 1) := by
          rw [he1, List.drop_append_of_le_length (by omega)]
          exact List.mem_append_left _ htl
        exact ih _ _ hfin a ha2 b hb
    · exfalso
      rw [List.drop_eq_nil_of_le (by omega)] at ha
      simp at ha

/-- C8 (amended): `publishToast` iterates the live listener set in
registration order, so on a completed run every initially registered
listener receives the toast, a listener subscribed during the run by an
initial listener also receives the same in-flight toast, and the final set
extends the initial one in order. -/
theorem publishToast_live_iteration {ι : Type} [DecidableEq ι]
    (beh : ι → Toast → Option ι) (t : Toast) (ls : List ι) (fuel : Nat)
    (hfin : (publishToast beh t ls fuel).2 = true) :
    (∀ a ∈ ls, a ∈ (publishToast beh t ls fuel).1)
    ∧ (∀ a ∈ ls, ∀ b, beh a t = some b → b ∈ (publishToast beh t ls fuel).1)
    ∧ (∃ ext, (publishToast beh t ls fuel).1 = ls ++ ext) := by
  refine ⟨publishLoop_mem beh t fuel ls 0 hfin, ?_, publishLoop_extends beh t fuel ls 0 hfin⟩
  intro a ha b hb
  exact publishLoop_subscribed_gets_toast beh t fuel ls 0 hfin a (by simpa using ha) b hb

/-- Behaviour used by the C8 counterexample and witness: listener 0
subscribes the fresh listener 1 when it receives a toast. -/
def c8Beh : Nat → Toast → Option Nat := fun a _ => if a = 0 then some 1 else none

/-- Toast used by the C8 counterexample and witness. -/
def c8Toast : Toast := { message := str "x", type := ToastType.error }

/-- C8 counterexample: with listener 0 registered, a publish during which 0
subscribes the new listener 1 completes and delivers the same in-flight
toast to 1 as well — the claimed snapshot isolation does not hold. -/
theorem publishToast_snapshot_counterexample :
    (publishToast c8Beh c8Toast [0] 3).2 = true
    ∧ (1 : Nat) ∉ [0]
    ∧ (1 : Nat) ∈ (publishToast c8Beh c8Toast [0] 3).1 := by decide

/-- C8 witness: the amended theorem applied to the concrete one-listener
bus. -/
theorem publishToast_live_iteration_witness :
    (0 : Nat) ∈ (publishToast c8Beh c8Toast [0] 3).1
    ∧ (1 : Nat) ∈ (publishToast c8Beh c8Toast [0] 3).1 := by
  have h := publishToast_live_iteration c8Beh c8Toast [0] 3 (by decide)
  exact ⟨h.1 0 (by decide), h.2.1 0 (by decide) 1 (by decide)⟩

/-! ## Percent-coding round trip (claim C4) -/

/-- `hexVal` inverts `hexDigitCh` on byte nibbles. -/
theorem hexVal_hexDigitCh : ∀ n : Nat, n < 16 → hexVal (hexDigitCh n) = some n := by
  have h : ∀ m : Fin 16, hexVal (hexDigitCh m.val) = some m.val := by decide
  intro n hn
  exact h ⟨n, hn⟩

/-- Every `Char` is a Unicode scalar value: below the surrogate block or
between it and `0x110000`. -/
theorem char_valid_ranges (c : Char) :
    c.toNat < 55296 ∨ (57343 < c.toNat ∧ c.toNat < 1114112) := by
  have h := c.valid
  simp [UInt32.isValidChar, Nat.isValidChar] at h
  exact h

/-- `readEsc` reads back the escape of a byte. -/
theorem readEsc_pctEscape (b : Nat) (hb : b < 256) (rest : Str) :
    readEsc (pctEscape b ++ rest) = some (b, rest) := by
  show readEsc ('%' :: hexDigitCh (b / 16) :: hexDigitCh (b % 16) :: rest) = some (b, rest)
  simp only [readEsc, hexVal_hexDigitCh (b / 16) (by omega),
    hexVal_hexDigitCh (b % 16) (by omega)]
  have hx : 16 * (b / 16) + b % 16 = b := by omega
  rw [hx]

/-- `readCont` reads back the escape of a continuation byte. -/
theorem readCont_pctEscape (y : Nat) (h1 : 128 ≤ y) (h2 : y < 192) (rest : Str) :
    readCont (pctEscape y ++ rest) = some (y, rest) := by
  unfold readCont
  rw [readEsc_pctEscape y (by omega) rest]
  simp only []
  rw [if_pos ⟨h1, h2⟩]

/-- A non-escape character passes through the decoder. -/
theorem decodeAux_pass (c : Char) (hc : ¬ c = '%') (s : Str) (fuel : Nat) :
    decodeAux (fuel + 1) (c :: s) = (decodeAux fuel s).map (fun t => c :: t) := by
  simp only [decodeAux]
  rw [if_neg hc]

/-- Decoding the escape of a single ASCII byte. -/
theorem decodeAux_b1 (b : Nat) (hb : b < 128) (rest : Str) (fuel : Nat) :
    decodeAux (fuel + 1) (pctEscape b ++ rest)
      = (decodeAux fuel rest).map (fun t => Char.ofNat b :: t) := by
  have hre := readEsc_pctEscape b (by omega) rest
  show decodeAux (fuel + 1) ('%' :: hexDigitCh (b / 16) :: hexDigitCh (b % 16) :: rest) = _
  simp only [decodeAux, if_true]
  rw [show readEsc ('%' :: hexDigitCh (b / 16) :: hexDigitCh (b % 16) :: rest) = some (b, rest)
      from hre]
  simp only []
  rw [if_pos hb]

/-- Decoding the two-byte UTF-8 escape sequence of `u ∈ [0x80, 0x800)`. -/
theorem decodeAux_b2 (u : Nat) (h1 : 128 ≤ u) (h2 : u < 2048) (rest : Str) (fuel : Nat) :
    decodeAux (fuel + 1) (pctEscape (192 + u / 64) ++ (pctEscape (128 + u % 64) ++ rest))
      = (decodeAux fuel rest).map (fun t => Char.ofNat u :: t) := by
  have hre := readEsc_pctEscape (192 + u / 64) (by omega) (pctEscape (128 + u % 64) ++ rest)
  have hrc := readCont_pctEscape (128 + u % 64) (by omega) (by omega) rest
  show decodeAux (fuel + 1)
      ('%' :: hexDigitCh ((192 + u / 64) / 16) :: hexDigitCh ((192 + u / 64) % 16)
        :: (pctEscape (128 + u % 64) ++ rest)) = _
  simp only [decodeAux, if_true]
  rw [show readEsc ('%' :: hexDigitCh ((192 + u / 64) / 16) :: hexDigitCh ((192 + u / 64) % 16)
        :: (pctEscape (128 + u % 64) ++ rest))
      = some (192 + u / 64, pctEscape (128 + u % 64) ++ rest) from hre]
  simp only []
  rw [if_neg (by omega), if_neg (by omega), if_pos (by omega)]
  rw [hrc]
  simp only []
  have hcp : (192 + u / 64 - 192) * 64 + (128 + u % 64 - 128) = u := by omega
  rw [hcp]

/-- Decoding the three-byte UTF-8 escape sequence of a non-surrogate
`u ∈ [0x800, 0x10000)`. -/
theorem decodeAux_b3 (u : Nat) (h1 : 2048 ≤ u) (h2 : u < 65536)
    (hs : u < 55296 ∨ 57343 < u) (rest : Str) (fuel : Nat) :
    decodeAux (fuel + 1)
      (pctEscape (224 + u / 4096)
        ++ (pctEscape (128 + (u / 64) % 64) ++ (pctEscape (128 + u % 64) ++ rest)))
      = (decodeAux fuel rest).map (fun t => Char.ofNat u :: t) := by
  have hre := readEsc_pctEscape (224 + u / 4096) (by omega)
    (pctEscape (128 + (u / 64) % 64) ++ (pctEscape (128 + u % 64) ++ rest))
  have hrc1 := readCont_pctEscape (128 + (u / 64) % 64) (by omega) (by omega)
    (pctEscape (128 + u % 64) ++ rest)
  have hrc2 := readCont_pctEscape (128 + u % 64) (by omega) (by omega) rest
  show decodeAux (fuel + 1)
      ('%' :: hexDigitCh ((224 + u / 4096) / 16) :: hexDigitCh ((224 + u / 4096) % 16)
        :: (pctEscape (128 + (u / 64) % 64) ++ (pctEscape (128 + u % 64) ++ rest))) = _
  simp only [decodeAux, if_true]
  rw [show readEsc ('%' :: hexDigitCh ((224 + u / 4096) / 16) :: hexDigitCh ((224 + u / 4096) % 16)
        :: (pctEscape (128 + (u / 64) % 64) ++ (pctEscape (128 + u % 64) ++ rest)))
      = some (224 + u / 4096, pctEscape (128 + (u / 64) % 64) ++ (pctEscape (128 + u % 64) ++ rest))
      from hre]
  simp only []
  rw [if_neg (by omega), if_neg (by omega), if_neg (by omega), if_pos (by omega)]
  rw [hrc1]
  simp only []
  rw [hrc2]
  simp only []
  have hcp : (224 + u / 4096 - 224) * 4096 + (128 + (u / 64) % 64 - 128) * 64
      + (128 + u % 64 - 128) = u := by omega
  rw [hcp]
  rw [if_pos ⟨by omega, by omega⟩]

/-- Decoding the four-byte UTF-8 escape sequence of `u ∈ [0x10000, 0x110000)`. -/
theorem decodeAux_b4 (u : Nat) (h1 : 65536 ≤ u) (h2 : u < 1114112) (rest : Str) (fuel : Nat) :
    decodeAux (fuel + 1)
      (pctEscape (240 + u / 262144)
        ++ (pctEscape (128 + (u / 4096) % 64)
          ++ (pctEscape (128 + (u / 64) % 64) ++ (pctEscape (128 + u % 64) ++ rest))))
      = (decodeAux fuel rest).map (fun t => Char.ofNat u :: t) := by
  have hre := readEsc_pctEscape (240 + u / 262144) (by omega)
    (pctEscape (128 + (u / 4096) % 64)
      ++ (pctEscape (128 + (u / 64) % 64) ++ (pctEscape (128 + u % 64) ++ rest)))
  have hrc1 := readCont_pctEscape (128 + (u / 4096) % 64) (by omega) (by omega)
    (pctEscape (128 + (u / 64) % 64) ++ (pctEscape (128 + u % 64) ++ rest))
  have hrc2 := readCont_pctEscape (128 + (u / 64) % 64) (by omega) (by omega)
    (pctEscape (128 + u % 64) ++ rest)
  have hrc3 := readCont_pctEscape (128 + u % 64) (by omega) (by omega) rest
  show decodeAux (fuel + 1)
      ('%' :: hexDigitCh ((240 + u / 262144) / 16) :: hexDigitCh ((240 + u / 262144) % 16)
        :: (pctEscape (128 + (u / 4096) % 64)
          ++ (pctEscape (128 + (u / 64) % 64) ++ (pctEscape (128 + u % 64) ++ rest)))) = _
  simp only [decodeAux, if_true]
  rw [show readEsc ('%' :: hexDigitCh ((240 + u / 262144) / 16)
        :: hexDigitCh ((240 + u / 262144) % 16)
        :: (pctEscape (128 + (u / 4096) % 64)
          ++ (pctEscape (128 + (u / 64) % 64) ++ (pctEscape (128 + u % 64) ++ rest))))
      = some (240 + u / 262144,
          pctEscape (128 + (u / 4096) % 64)
            ++ (pctEscape (128 + (u / 64) % 64) ++ (pctEscape (128 + u % 64) ++ rest)))
      from hre]
  simp only []
  rw [if_neg (by omega), if_neg (by omega), if_neg (by omega), if_neg (by omega),
    if_pos (by omega)]
  rw [hrc1]
  simp only []
  rw [hrc2]
  simp only []
  rw [hrc3]
  simp only []
  have hcp : (240 + u / 262144 - 240) * 262144 + (128 + (u / 4096) % 64 - 128) * 4096
      + (128 + (u / 64) % 64 - 128) * 64 + (128 + u % 64 - 128) = u := by omega
  rw [hcp]
  rw [if_pos ⟨by omega, by omega⟩]

/-- The decoder inverts the encoder on one character, with one unit of
fuel. -/
theorem decodeAux_encChar (c : Char) (rest : Str) (fuel : Nat) :
    decodeAux (fuel + 1) (encodeChar c ++ rest)
      = (decodeAux fuel rest).map (fun t => c :: t) := by
  by_cases hu : isUnreservedCh c
  · have henc : encodeChar c = [c] := by simp [encodeChar, hu]
    rw [henc]
    have hc : ¬ c = '%' := by
      intro h
      subst h
      exact absurd hu (by decide)
    exact decodeAux_pass c hc rest fuel
  · have henc : encodeChar c = (utf8Bytes c.toNat).flatMap pctEscape := by
      simp [encodeChar, hu]
    rw [henc]
    have hv := char_valid_ranges c
    by_cases hr1 : c.toNat < 128
    · have hb : utf8Bytes c.toNat = [c.toNat] := by
        unfold utf8Bytes
        rw [if_pos hr1]
      rw [hb]
      simp only [List.flatMap_cons, List.flatMap_nil, List.append_nil]
      rw [decodeAux_b1 c.toNat hr1 rest fuel, Char.ofNat_toNat]
    · by_cases hr2 : c.toNat < 2048
      · have hb : utf8Bytes c.toNat = [192 + c.toNat / 64, 128 + c.toNat % 64] := by
          unfold utf8Bytes
          rw [if_neg hr1, if_pos hr2]
        rw [hb]
        simp only [List.flatMap_cons, List.flatMap_nil, List.append_nil, List.append_assoc]
        rw [decodeAux_b2 c.toNat (by omega) hr2 rest fuel, Char.ofNat_toNat]
      · by_cases hr3 : c.toNat < 65536
        · have hb : utf8Bytes c.toNat
              = [224 + c.toNat / 4096, 128 + (c.toNat / 64) % 64, 128 + c.toNat % 64] := by
            unfold utf8Bytes
            rw [if_neg hr1, if_neg hr2, if_pos hr3]
          rw [hb]
          simp only [List.flatMap_cons, List.flatMap_nil, List.append_nil, List.append_assoc]
          rw [decodeAux_b3 c.toNat (by omega) hr3 (by omega) rest fuel, Char.ofNat_toNat]
        · have hb : utf8Bytes c.toNat
              = [240 + c.toNat / 262144, 128 + (c.toNat / 4096) % 64,
                 128 + (c.toNat / 64) % 64, 128 + c.toNat % 64] := by
            unfold utf8Bytes
            rw [if_neg hr1, if_neg hr2, if_neg hr3]
          rw [hb]
          simp only [List.flatMap_cons, List.flatMap_nil, List.append_nil, List.append_assoc]
          rw [decodeAux_b4 c.toNat (by omega) (by omega) rest fuel, Char.ofNat_toNat]

/-- The decoder inverts the encoder on a whole prefix, one unit of fuel per
character. -/
theorem decodeAux_encAppend (f rest : Str) (fuel : Nat) :
    decodeAux (f.length + fuel) (encodeURIComponent f ++ rest)
      = (decodeAux fuel rest).map (fun t => f ++ t) := by
  induction f with
  | nil =>
    simp [encodeURIComponent]
  | cons c f ih =>
    have henc : encodeURIComponent (c :: f) = encodeChar c ++ encodeURIComponent f := by
      simp [encodeURIComponent]
    rw [henc, List.append_assoc]
    have hlen : (c :: f).length + fuel = (f.length + fuel) + 1 := by
      simp [List.length_cons]
      omega
    rw [hlen, decodeAux_encChar c (encodeURIComponent f ++ rest) (f.length + fuel), ih]
    cases decodeAux fuel rest <;> simp

/-- The encoding of one character is never empty. -/
theorem encodeChar_length_pos (c : Char) : 0 < (encodeChar c).length := by
  by_cases hu : isUnreservedCh c
  · simp [encodeChar, hu]
  · simp only [encodeChar, hu, if_false, Bool.false_eq_true]
    by_cases hr1 : c.toNat < 128
    · unfold utf8Bytes
      rw [if_pos hr1]
      simp [pctEscape]
    · by_cases hr2 : c.toNat < 2048
      · unfold utf8Bytes
        rw [if_neg hr1, if_pos hr2]
        simp [pctEscape]
      · by_cases hr3 : c.toNat < 65536
        · unfold utf8Bytes
          rw [if_neg hr1, if_neg hr2, if_pos hr3]
          simp [pctEscape]
        · unfold utf8Bytes
          rw [if_neg hr1, if_neg hr2, if_neg hr3]
          simp [pctEscape]

/-- Percent-encoding never shrinks a string. -/
theorem encodeURIComponent_length (f : Str) :
    f.length ≤ (encodeURIComponent f).length := by
  induction f with
  | nil => simp [encodeURIComponent]
  | cons c f ih =>
    have henc : encodeURIComponent (c :: f) = encodeChar c ++ encodeURIComponent f := by
      simp [encodeURIComponent]
    rw [henc]
    simp only [List.length_cons, List.length_append]
    have := encodeChar_length_pos c
    omega

/-- `decodeURIComponent` inverts `encodeURIComponent`. -/
theorem decode_encode (f : Str) :
    decodeURIComponent (encodeURIComponent f) = some f := by
  unfold decodeURIComponent
  have hlen := encodeURIComponent_length f
  have hsplit : (encodeURIComponent f).length + 1
      = f.length + ((encodeURIComponent f).length + 1 - f.length) := by omega
  obtain ⟨k, hk⟩ : ∃ k, (encodeURIComponent f).length + 1 - f.length = k + 1 :=
    ⟨(encodeURIComponent f).length - f.length, by omega⟩
  rw [hsplit, hk]
  have happ := decodeAux_encAppend f [] (k + 1)
  rw [List.append_nil] at happ
  rw [happ]
  simp [decodeAux]

/-! ## Filename extraction (claim C4) -/

/-- Case-insensitive comparison is reflexive. -/
theorem ciEq_refl (c : Char) : ciEq c c = true := by
  simp [ciEq]

/-- A literal matches its own occurrence at the head of the input. -/
theorem matchPfxCI_self (p : Str) : ∀ rest : Str, matchPfxCI p (p ++ rest) = some rest := by
  induction p with
  | nil =>
    intro rest
    simp [matchPfxCI]
  | cons c cs ih =>
    intro rest
    rw [List.cons_append]
    simp only [matchPfxCI, ciEq_refl, if_true]
    exact ih rest

/-- The scan of `/filename\*=UTF-8''([^;]+)/i` moves right over any
character that does not match `f`. -/
theorem execUtf8_skip (c : Char) (rest : Str) (h : ciEq 'f' c = false) :
    execUtf8 (c :: rest) = execUtf8 rest := by
  have hm : matchPfxCI utf8Tag (c :: rest) = none := by
    rw [show utf8Tag = 'f' :: (str "ilename*=UTF-8" ++ [apos, apos]) from by decide]
    simp only [matchPfxCI, h]
    rfl
  simp only [execUtf8]
  rw [hm]

/-- `takeWhile` keeps a list all of whose elements satisfy the predicate. -/
theorem takeWhile_all {p : Char → Bool} (l : Str) (h : ∀ a ∈ l, p a) :
    l.takeWhile p = l :=
  List.takeWhile_eq_self_iff.mpr h

/-- At the position of the literal, the regex captures a non-empty
semicolon-free remainder whole. -/
theorem execUtf8_found (enc : Str) (hne : enc ≠ [])
    (hsemi : ∀ ch ∈ enc, ch ≠ ';') :
    execUtf8 (utf8Tag ++ enc) = some enc := by
  have hcons : utf8Tag ++ enc = 'f' :: (str "ilename*=UTF-8" ++ [apos, apos] ++ enc) := by
    rw [show utf8Tag = 'f' :: (str "ilename*=UTF-8" ++ [apos, apos]) from by decide,
      List.cons_append]
  rw [hcons]
  conv_lhs => rw [execUtf8]
  rw [show matchPfxCI utf8Tag ('f' :: (str "ilename*=UTF-8" ++ [apos, apos] ++ enc))
      = some enc from by rw [← hcons]; exact matchPfxCI_self utf8Tag enc]
  have htw : enc.takeWhile (fun ch => ch ≠ ';') = enc :=
    takeWhile_all enc (by
      intro a ha
      simp [hsemi a ha])
  simp only [htw]
  rw [if_neg hne]

/-- Hexadecimal digits are not semicolons. -/
theorem hexDigitCh_ne_semi : ∀ n : Nat, n < 16 → hexDigitCh n ≠ ';' := by
  have h : ∀ m : Fin 16, hexDigitCh m.val ≠ ';' := by decide
  exact fun n hn => h ⟨n, hn⟩

/-- UTF-8 bytes of a scalar value are bytes. -/
theorem utf8Bytes_lt_256 (u : Nat) (hu : u < 1114112) : ∀ b ∈ utf8Bytes u, b < 256 := by
  intro b hb
  unfold utf8Bytes at hb
  by_cases hr1 : u < 128
  · rw [if_pos hr1] at hb
    simp at hb
    omega
  · rw [if_neg hr1] at hb
    by_cases hr2 : u < 2048
    · rw [if_pos hr2] at hb
      simp at hb
      rcases hb with h | h <;> omega
    · rw [if_neg hr2] at hb
      by_cases hr3 : u < 65536
      · rw [if_pos hr3] at hb
        simp at hb
        rcases hb with h | h | h <;> omega
      · rw [if_neg hr3] at hb
        simp at hb
        rcases hb with h | h | h | h <;> omega

/-- No character of a byte escape is a semicolon. -/
theorem pctEscape_ne_semi (b : Nat) (hb : b < 256) : ∀ ch ∈ pctEscape b, ch ≠ ';' := by
  intro ch hch
  have ha := hexDigitCh_ne_semi (b / 16) (by omega)
  have hc := hexDigitCh_ne_semi (b % 16) (by omega)
  simp [pctEscape] at hch
  rcases hch with h | h | h <;> subst h
  · decide
  · exact ha
  · exact hc

/-- Percent-encoded output never contains a semicolon, so the greedy
`([^;]+)` capture takes it whole. -/
theorem encodeURIComponent_ne_semi (f : Str) : ∀ ch ∈ encodeURIComponent f, ch ≠ ';' := by
  intro ch hch
  simp only [encodeURIComponent] at hch
  obtain ⟨c, hcf, hch2⟩ := List.mem_flatMap.mp hch
  by_cases hu : isUnreservedCh c
  · rw [show encodeChar c = [c] from by simp [encodeChar, hu]] at hch2
    simp at hch2
    subst hch2
    intro h
    subst h
    exact absurd hu (by decide)
  · rw [show encodeChar c = (utf8Bytes c.toNat).flatMap pctEscape from by
      simp [encodeChar, hu]] at hch2
    obtain ⟨b, hbmem, hchp⟩ := List.mem_flatMap.mp hch2
    have hblt : b < 256 := utf8Bytes_lt_256 c.toNat
      (by have := char_valid_ranges c; omega) b hbmem
    exact pctEscape_ne_semi b hblt ch hchp

/-- The encoding of a non-empty string is non-empty. -/
theorem encodeURIComponent_ne_nil (f : Str) (hf : f ≠ []) : encodeURIComponent f ≠ [] := by
  cases f with
  | nil => exact absurd rfl hf
  | cons c f =>
    have henc : encodeURIComponent (c :: f) = encodeChar c ++ encodeURIComponent f := by
      simp [encodeURIComponent]
    rw [henc]
    intro h
    have hnil : encodeChar c = [] := (List.append_eq_nil.mp h).1
    have hpos := encodeChar_length_pos c
    rw [hnil] at hpos
    simp at hpos

/-- On the constructed header the extended-form regex captures exactly the
percent-encoded filename: the leading `attachment; ` contains no character
matching `f`, and the encoded tail contains no semicolon. -/
theorem execUtf8_header (enc : Str) (hne : enc ≠ []) (hsemi : ∀ ch ∈ enc, ch ≠ ';') :
    execUtf8 (str "attachment; " ++ (utf8Tag ++ enc)) = some enc := by
  show execUtf8 ('a' :: 't' :: 't' :: 'a' :: 'c' :: 'h' :: 'm' :: 'e' :: 'n' :: 't'
    :: ';' :: ' ' :: (utf8Tag ++ enc)) = some enc
  rw [execUtf8_skip _ _ (by decide), execUtf8_skip _ _ (by decide),
    execUtf8_skip _ _ (by decide), execUtf8_skip _ _ (by decide),
    execUtf8_skip _ _ (by decide), execUtf8_skip _ _ (by decide),
    execUtf8_skip _ _ (by decide), execUtf8_skip _ _ (by decide),
    execUtf8_skip _ _ (by decide), execUtf8_skip _ _ (by decide),
    execUtf8_skip _ _ (by decide), execUtf8_skip _ _ (by decide)]
  exact execUtf8_found enc hne hsemi

/-- C4 (amended): for every NON-EMPTY filename `f`, `extractFilename` on
`attachment; filename*=UTF-8''` followed by the percent-encoding of `f`
returns exactly `f` (the `([^;]+)` capture requires at least one character,
so the empty filename instead falls through to the fallback); and whenever
percent-decoding of the captured extended-form text fails, the raw captured
text is returned unmodified.  `extractFilename` is a total function, so it
never throws. -/
theorem extractFilename_rfc5987 (f fallback s cap : Str) :
    (f ≠ [] →
      extractFilename (some (str "attachment; " ++ (utf8Tag ++ encodeURIComponent f)))
        fallback = f)
    ∧ (execUtf8 s = some cap → decodeURIComponent cap = none →
        extractFilename (some s) fallback = cap) := by
  constructor
  · intro hf
    have hne := encodeURIComponent_ne_nil f hf
    have hexec := execUtf8_header (encodeURIComponent f) hne (encodeURIComponent_ne_semi f)
    have hsne : str "attachment; " ++ (utf8Tag ++ encodeURIComponent f) ≠ [] := by
      simp [str]
    simp only [extractFilename]
    rw [if_neg hsne, hexec]
    have hgoal : (match decodeURIComponent (encodeURIComponent f) with
        | some d => d
        | none => encodeURIComponent f) = f := by rw [decode_encode f]
    exact hgoal
  · intro hex hdec
    have hsne : s ≠ [] := by
      intro h
      subst h
      simp [execUtf8] at hex
    simp only [extractFilename]
    rw [if_neg hsne, hex]
    have hgoal : (match decodeURIComponent cap with
        | some d => d
        | none => cap) = cap := by rw [hdec]
    exact hgoal

/-- C4 counterexample: for the empty filename the constructed header ends in
`UTF-8''` with nothing to capture, the extended-form regex fails (its
capture needs at least one character), the plain form fails too, and the
fallback is returned instead of the empty filename. -/
theorem extractFilename_empty_counterexample :
    extractFilename (some (str "attachment; " ++ (utf8Tag ++ encodeURIComponent [])))
      (str "doc.pdf") = str "doc.pdf"
    ∧ str "doc.pdf" ≠ ([] : Str) := by decide

/-- C4 witness: the round trip on the concrete filename `policy.pdf`, and
the raw-capture fallback on the undecodable capture `%FF`. -/
theorem extractFilename_rfc5987_witness :
    extractFilename
        (some (str "attachment; " ++ (utf8Tag ++ encodeURIComponent (str "policy.pdf"))))
        (str "fb") = str "policy.pdf"
    ∧ extractFilename (some (utf8Tag ++ ['%', 'F', 'F'])) (str "fb") = ['%', 'F', 'F'] := by
  refine ⟨(extractFilename_rfc5987 (str "policy.pdf") (str "fb") [] []).1 (by decide),
          (extractFilename_rfc5987 [] (str "fb") (utf8Tag ++ ['%', 'F', 'F'])
            ['%', 'F', 'F']).2 (by decide) (by decide)⟩
